import Mathlib

/-!
Verification development for the Q-A-RAG-System repository.

The Python source is shallowly embedded: pure fragments become Lean
functions, mutation of the FAISSStore object becomes explicit state
passing, raised exceptions become error values, and numpy float32
vectors are modelled over the rationals (the claims under study concern
ordering, lengths and container synchronisation, none of which depend on
floating-point rounding).  Python character counts are modelled on the
underlying character lists of Lean strings.
-/

namespace RagSys

/-- ASCII model of the Python whitespace class used by str.strip and
the regex class backslash-s: space, tab, newline, carriage return,
vertical tab and form feed. -/
def isPySpace (c : Char) : Bool :=
  c = ' ' || c = '\t' || c = '\n' || c = '\x0d' || c = '\x0b' || c = '\x0c'

/-- Model of the Python str.strip method (no arguments): remove leading
and trailing whitespace characters. -/
def pyStrip (s : String) : String :=
  ⟨((s.data.dropWhile isPySpace).reverse.dropWhile isPySpace).reverse⟩

/-- Model of the Python slice s[:n]: the first n characters. -/
def pyTake (n : Nat) (s : String) : String :=
  ⟨s.data.take n⟩

/-- Model of the Python slice s[n:]: drop the first n characters. -/
def pyDrop (n : Nat) (s : String) : String :=
  ⟨s.data.drop n⟩

/-- Model of the Python slice s[:-n] for positive n: drop the last n
characters (empty when n is at least the length). -/
def pyDropRight (n : Nat) (s : String) : String :=
  ⟨s.data.take (s.data.length - n)⟩

/-- Python len of a string: its character count. -/
def pyLen (s : String) : Nat := s.data.length

theorem pyTake_len_le (n : Nat) (s : String) : pyLen (pyTake n s) ≤ n := by
  simp only [pyTake, pyLen]
  exact List.length_take_le n s.data

/-- A small universe of Python runtime values, covering everything the
studied code stores in its dictionaries.  The genObj constructor
represents a generator object produced by calling a generator function
with the given prompt argument, before any iteration has happened. -/
inductive PyObj where
  | str (s : String)
  | int (n : Int)
  | rat (q : ℚ)
  | list (elems : List PyObj)
  | dict (entries : List (String × PyObj))
  | genObj (prompt : String)

/-- A Python dict with string keys, as an association list with unique
keys kept in insertion order. -/
abbrev PyDict := List (String × PyObj)

/-- Dictionary lookup: d[k] when present. -/
def dictGet (d : PyDict) (k : String) : Option PyObj :=
  (d.find? (fun e => e.1 = k)).map (·.2)

/-- Model of the Python dict assignment d[k] = v: an existing key keeps
its position and receives the new value, a fresh key is appended. -/
def updateKey : PyDict → String → PyObj → PyDict
  | [], k, v => [(k, v)]
  | e :: es, k, v => if e.1 = k then (k, v) :: es else e :: updateKey es k v

/-- Model of a Python dict display with a final double-star spread:
the spread entries are written one by one over the base dict, so a key
occurring both in the base and in the spread takes the spread value. -/
def pyDictLit (base : PyDict) (spread : PyDict) : PyDict :=
  spread.foldl (fun d e => updateKey d e.1 e.2) base

theorem dictGet_updateKey_self (d : PyDict) (k : String) (v : PyObj) :
    dictGet (updateKey d k v) k = some v := by
  induction d with
  | nil => simp [updateKey, dictGet, List.find?]
  | cons e es ih =>
    by_cases he : e.1 = k
    · simp [updateKey, dictGet, List.find?, he]
    · simp only [updateKey, if_neg he, dictGet]
      rw [List.find?_cons_of_neg _ (by simpa using he)]
      exact ih

theorem dictGet_updateKey_other (d : PyDict) (k k' : String) (v : PyObj)
    (hne : k' ≠ k) : dictGet (updateKey d k v) k' = dictGet d k' := by
  induction d with
  | nil => simp [updateKey, dictGet, List.find?, Ne.symm hne]
  | cons e es ih =>
    by_cases he : e.1 = k
    · by_cases he' : e.1 = k'
      · exact absurd (he'.symm.trans he) hne
      · simp only [updateKey, if_pos he, dictGet]
        rw [List.find?_cons_of_neg _ (by simpa using Ne.symm hne),
          List.find?_cons_of_neg _ (by simpa using he')]
    · simp only [updateKey, if_neg he, dictGet]
      by_cases he' : e.1 = k'
      · simp [List.find?, he']
      · rw [List.find?_cons_of_neg _ (by simpa using he'),
          List.find?_cons_of_neg _ (by simpa using he')]
        exact ih

/-! ### DocumentProcessor.split_into_chunks (src/src/utils/document_processor.py)

The chunker is embedded on Lean strings; Python character counts are the
lengths of the underlying character lists.  Loop state is passed
explicitly; the two accumulation loops become folds.  Integer length
bookkeeping uses Int, mirroring Python int arithmetic including the one
subtraction the heading branch performs. -/

/-- Model of the Python split on the two-character separator of two
newlines: non-overlapping occurrences are removed left to right, and
empty segments between adjacent occurrences are kept, exactly as
str.split with a literal separator behaves. -/
def splitOnDoubleNewline : List Char → List (List Char)
  | '\n' :: '\n' :: rest => [] :: splitOnDoubleNewline rest
  | c :: rest =>
    match splitOnDoubleNewline rest with
    | [] => [[c]]
    | h :: t => (c :: h) :: t
  | [] => [[]]

/-- ASCII model of the Python str.isupper method: at least one cased
character, and no cased character is lower case. -/
def pyIsUpper (s : String) : Bool :=
  s.data.any Char.isAlpha && s.data.all (fun c => !c.isAlpha || c.isUpper)

/-- Deterministic stand-in for the hexdigest of hashlib.md5 over the
chunk text.  No claim under study depends on the hash value, only on
its determinism in the text, which this keeps. -/
def md5Hex (s : String) : String :=
  toString (s.data.foldl (fun a c => (a * 131 + c.toNat) % 1000000007) 7)

/-- A chunk record as built by split_into_chunks: the keys text,
chunk_id and length of the Python dict. -/
structure Chunk where
  text : String
  chunk_id : String
  length : Nat
  deriving DecidableEq, Repr

/-- Builds the chunk dict appended at every finalisation site: the
length key always holds the character count of the text. -/
def mkChunk (t : String) : Chunk :=
  { text := t, chunk_id := md5Hex t, length := pyLen t }

/-- Model of the Python join method of a separator string. -/
def joinWith (sep : String) : List String → String
  | [] => ""
  | [s] => s
  | s :: rest => s ++ sep ++ joinWith sep rest

/-- The slice cur[-(min 2 (len cur)):]: the last one or two elements. -/
def takeLast2 (l : List String) : List String :=
  l.drop (l.length - 2)

/-- Character-list test that the second list ends with the first. -/
def leadMatch : List Char → List Char → Bool
  | [], _ => true
  | _ :: _, [] => false
  | a :: as, b :: bs => a = b && leadMatch as bs

/-- Model of the Python str.endswith method. -/
def pyEndsWith (s t : String) : Bool :=
  leadMatch t.data.reverse s.data.reverse

/-- The heading test of the first loop: ends with a colon, or is
shorter than 100 characters and fully upper case. -/
def isHeading (p : String) : Bool :=
  pyEndsWith p ":" || (decide (pyLen p < 100) && pyIsUpper p)

/-- State of the paragraph accumulation loop: emitted chunks, the
pending buffer, and the running length counter of the Python code. -/
structure P1State where
  chunks : List Chunk
  cur : List String
  curLen : Int

/-- One iteration of the paragraph loop of split_into_chunks: finalise
when the paragraph would overflow, seed the next buffer with the last
one or two paragraphs, append the paragraph, then move a detected
heading to the front of a fresh buffer. -/
def p1Step (cs : Int) (st : P1State) (para : String) : P1State :=
  let st1 :=
    if st.cur ≠ [] ∧ st.curLen + (pyLen para : Int) > cs then
      let seed := takeLast2 st.cur
      { chunks := st.chunks ++ [mkChunk (joinWith "\n\n" st.cur)],
        cur := seed,
        curLen := (seed.map (fun p => (pyLen p : Int) + 2)).sum }
    else st
  let st2 := { st1 with
    cur := st1.cur ++ [para],
    curLen := st1.curLen + (pyLen para : Int) + 2 }
  if isHeading para ∧ st2.cur.length > 1 then
    let rest := st2.cur.dropLast
    let st3 := { st2 with
      cur := rest,
      curLen := st2.curLen - ((pyLen para : Int) + 2) }
    let st4 :=
      if st3.cur ≠ [] then
        { st3 with chunks := st3.chunks ++ [mkChunk (joinWith "\n\n" st3.cur)] }
      else st3
    { st4 with cur := [para], curLen := (pyLen para : Int) }
  else st2

/-- The paragraph list: split on blank lines, strip each piece, keep
the non-empty ones. -/
def paragraphsOf (text : String) : List String :=
  ((splitOnDoubleNewline text.data).map (fun p => pyStrip ⟨p⟩)).filter
    (fun p => p ≠ "")

/-- The first pass of split_into_chunks: the paragraph loop followed by
the flush of the remaining buffer. -/
def firstPass (cs : Int) (text : String) : List Chunk :=
  let st := (paragraphsOf text).foldl (p1Step cs) ⟨[], [], 0⟩
  st.chunks ++ (if st.cur ≠ [] then [mkChunk (joinWith "\n\n" st.cur)] else [])

/-- A sentence-final punctuation character of the re pattern. -/
def isSentEnd (c : Char) : Bool :=
  c = '.' || c = '!' || c = '?'

/-- Model of re.split with the pattern of a whitespace run preceded by
sentence-final punctuation: scanning left to right, a maximal
whitespace run whose immediately preceding character is one of period,
exclamation or question mark separates two segments and is dropped.
The prev argument carries the character preceding the current
position. -/
def sentSplitAux (prev : Char) (cs : List Char) : List (List Char) :=
  match cs with
  | [] => [[]]
  | c :: rest =>
    if isPySpace c ∧ isSentEnd prev then
      [] :: sentSplitAux ' ' (rest.dropWhile isPySpace)
    else
      match sentSplitAux c rest with
      | [] => [[c]]
      | h :: t => (c :: h) :: t
termination_by cs.length
decreasing_by
  · simp only [List.length_cons]
    exact Nat.lt_succ_of_le ((List.dropWhile_suffix isPySpace).sublist.length_le)
  · simp [List.length_cons]

/-- The sentence split of an oversized chunk.  The first position has
no preceding character, so a non-sentence-final placeholder seeds the
scan. -/
def sentSplitStr (s : String) : List String :=
  (sentSplitAux 'A' s.data).map (fun l => ⟨l⟩)

/-- State of the sentence accumulation loop in the post-processing
step. -/
structure RSState where
  out : List Chunk
  cur : List String
  curLen : Int

/-- One iteration of the sentence loop: strip, skip empties, finalise
on overflow, then append. -/
def rsStep (cs : Int) (st : RSState) (sent : String) : RSState :=
  let s := pyStrip sent
  if s = "" then st
  else
    let st1 :=
      if st.cur ≠ [] ∧ st.curLen + (pyLen s : Int) > cs then
        { out := st.out ++ [mkChunk (joinWith " " st.cur)],
          cur := [], curLen := 0 }
      else st
    { st1 with
      cur := st1.cur ++ [s],
      curLen := st1.curLen + (pyLen s : Int) + 1 }

/-- The sentence re-split of one oversized chunk, including the final
flush. -/
def resplitChunk (cs : Int) (text : String) : List Chunk :=
  let st := (sentSplitStr text).foldl (rsStep cs) ⟨[], [], 0⟩
  st.out ++ (if st.cur ≠ [] then [mkChunk (joinWith " " st.cur)] else [])

/-- The post-processing loop: a chunk within the bound passes through,
an oversized chunk is replaced by its sentence re-split. -/
def postProcess (cs : Int) (chunks : List Chunk) : List Chunk :=
  chunks.foldl
    (fun acc c =>
      if (c.length : Int) ≤ cs then acc ++ [c]
      else acc ++ resplitChunk cs c.text)
    []

/-- DocumentProcessor.split_into_chunks: empty or whitespace-only text
yields no chunks, otherwise the paragraph pass followed by the
post-processing pass. -/
def splitIntoChunks (cs : Int) (text : String) : List Chunk :=
  if pyStrip text = "" then []
  else postProcess cs (firstPass cs text)


/-! ### FAISSStore (src/src/vectorstore/faiss_store.py)

The faiss IndexFlatL2 object is modelled as the list of stored vectors
over the rationals together with its fixed dimension.  The python
wrapper of faiss checks, before touching the index, that the batch
width equals the index dimension on add and that the query width
equals it and k is positive on search; these checks are part of the
model since the store code relies on them.  Exceptions become an
Option String returned next to the (possibly unchanged) state, in the
order the real code performs its mutations, so an error outcome
carries exactly the state at the moment of the raise. -/

/-- The faiss IndexFlatL2: fixed dimension and stored vectors. -/
structure Faiss where
  d : Nat
  vecs : List (List ℚ)

/-- The ntotal attribute. -/
def Faiss.ntotal (idx : Faiss) : Nat := idx.vecs.length

/-- The faiss add call on a rectangular batch of the given width: the
python wrapper asserts the width equals the index dimension before any
vector is stored, so a failing add leaves the index untouched. -/
def Faiss.add (idx : Faiss) (width : Nat) (rows : List (List ℚ)) :
    Option String × Faiss :=
  if width ≠ idx.d then (some "AssertionError: d == self.d", idx)
  else (none, { idx with vecs := idx.vecs ++ rows })

/-- Model of building a two-dimensional float32 numpy array out of a
non-empty list of rows: the common row width when the rows are
rectangular, and a raised ValueError (none) when they are ragged.  The
empty list is never passed here because add_embeddings returns early
on empty input. -/
def npShape : List (List ℚ) → Option Nat
  | [] => none
  | r :: rs => if rs.all (fun x => x.length = r.length) then some r.length else none

/-- The FAISSStore object: configured dimension, the faiss index and
the parallel metadata list. -/
structure FAISSStore where
  vector_dim : Nat
  index : Faiss
  metadata : List PyDict

/-- The record appended for position i of a batch: the dict display
with keys text and index followed by the double-star spread of the
caller metadata, whose keys override the first two on collision. -/
def mkRecord (text : String) (idxVal : Int) (m : PyDict) : PyDict :=
  pyDictLit [("text", PyObj.str text), ("index", PyObj.int idxVal)] m

/-- FAISSStore.add_embeddings.  Returns the exception message, if any,
together with the state at the end of the call; every raising step of
the real code fires before the first mutation, which the theorems about
atomicity make explicit. -/
def FAISSStore.add_embeddings (st : FAISSStore) (texts : List String)
    (embeddings : List (List ℚ)) (metadatas : Option (List PyDict)) :
    Option String × FAISSStore :=
  if texts = [] ∨ embeddings = [] then (none, st)
  else
    let metas := metadatas.getD (texts.map (fun _ => ([] : PyDict)))
    match npShape embeddings with
    | none => (some "ValueError: inhomogeneous array", st)
    | some width =>
      let afterAdd : Option String × Faiss :=
        if st.index.ntotal = 0 then
          st.index.add width embeddings
        else if width ≠ st.vector_dim then
          (some "ValueError: Dimensionality mismatch", st.index)
        else
          st.index.add width embeddings
      match afterAdd with
      | (some e, _) => (some e, st)
      | (none, idx2) =>
        let newTotal : Int := idx2.ntotal
        let records := (texts.zip metas).enum.map
          (fun p => mkRecord p.2.1 (newTotal - texts.length + p.1) p.2.2)
        (none, { st with index := idx2, metadata := st.metadata ++ records })

/-- Ascending insertion into a list of (label, distance) pairs sorted
by distance. -/
def sortedInsert (p : Int × ℚ) : List (Int × ℚ) → List (Int × ℚ)
  | [] => [p]
  | q :: rest => if p.2 ≤ q.2 then p :: q :: rest else q :: sortedInsert p rest

/-- Sort (label, distance) pairs by ascending distance, modelling the
exact ordered top-k result of the faiss flat index. -/
def sortPairs (l : List (Int × ℚ)) : List (Int × ℚ) :=
  l.foldr sortedInsert []

/-- Squared L2 distance between two vectors of equal width. -/
def l2sq (q v : List ℚ) : ℚ :=
  ((q.zip v).map (fun p => (p.1 - p.2) ^ 2)).sum

/-- The faiss search call for one query row: assert the query width
matches the index dimension and that k is positive, then return the k
ascending (label, distance) pairs of an exact scan, padding with label
-1 when fewer than k vectors are stored.  The distance stored in a
padding slot is never observed by the caller, which drops negative
labels, so the model uses 0 there. -/
def Faiss.search (idx : Faiss) (q : List ℚ) (k : Nat) :
    Except String (List (Int × ℚ)) :=
  if q.length ≠ idx.d then .error "AssertionError: d == self.d"
  else if k = 0 then .error "AssertionError: k > 0"
  else
    let scored := idx.vecs.enum.map (fun p => ((p.1 : Int), l2sq q p.2))
    let top := (sortPairs scored).take k
    .ok (top ++ List.replicate (k - top.length) ((-1 : Int), (0 : ℚ)))

/-- The body of the result loop of similarity_search: a (label,
distance) pair whose label is outside the valid metadata range is
skipped, any other pair yields a copy of the record at that position
with the score key set to the distance. -/
def searchKeep (metadata : List PyDict) (p : Int × ℚ) : Option PyDict :=
  if p.1 < 0 ∨ (metadata.length : Int) ≤ p.1 then none
  else some (updateKey (metadata.getD p.1.toNat []) "score" (PyObj.rat p.2))

/-- FAISSStore.similarity_search: empty index short-circuits to an
empty result; otherwise the pairs returned by the index search are
folded through searchKeep. -/
def FAISSStore.similarity_search (st : FAISSStore) (query : List ℚ)
    (k : Nat) : Except String (List PyDict) :=
  if st.index.ntotal = 0 then .ok []
  else
    match st.index.search query k with
    | .error e => .error e
    | .ok pairs => .ok (pairs.filterMap (searchKeep st.metadata))

/-- FAISSStore.clear: a fresh flat index of the configured dimension
and an empty metadata list. -/
def FAISSStore.clear (st : FAISSStore) : FAISSStore :=
  { st with index := { d := st.vector_dim, vecs := [] }, metadata := [] }

/-- A persisted artifact on disk: absent, unreadable, or readable with
the given content. -/
inductive DiskArtifact (α : Type) where
  | missing
  | corrupt
  | stored (a : α)

/-- The persistence location: the index blob and the metadata sidecar
file next to it. -/
structure Disk where
  indexFile : DiskArtifact Faiss
  metaFile : DiskArtifact (List PyDict)

/-- Construction of a FAISSStore over a persistence location, i.e.
init followed by initialize_index and load_index.  A missing index
file yields a fresh flat index.  An existing index file is read; a
raise while reading it or while parsing the sidecar resets both
containers to empty.  A readable index whose sidecar file does not
exist keeps the metadata list initialised in init, namely the empty
list, without touching the loaded index. -/
def FAISSStore.construct (vector_dim : Nat) (disk : Disk) : FAISSStore :=
  match disk.indexFile with
  | .missing =>
    { vector_dim := vector_dim,
      index := { d := vector_dim, vecs := [] }, metadata := [] }
  | .corrupt =>
    { vector_dim := vector_dim,
      index := { d := vector_dim, vecs := [] }, metadata := [] }
  | .stored idx =>
    match disk.metaFile with
    | .missing =>
      { vector_dim := vector_dim, index := idx, metadata := [] }
    | .corrupt =>
      { vector_dim := vector_dim,
        index := { d := vector_dim, vecs := [] }, metadata := [] }
    | .stored m =>
      { vector_dim := vector_dim, index := idx, metadata := m }

/-- The store as constructed when nothing is persisted yet. -/
def freshStore (vector_dim : Nat) : FAISSStore :=
  { vector_dim := vector_dim,
    index := { d := vector_dim, vecs := [] }, metadata := [] }


/-! ### Llama3Client (src/src/llm/llama3_client.py)

The ollama transport is abstracted as a function from the chat inputs
to the returned message content, and json.loads as a function returning
none exactly when the real parser would raise JSONDecodeError.  The
generate method of the client contains a yield statement, which in
Python turns the whole def into a generator function: calling it
returns a generator object immediately and runs none of its body. -/

/-- A textual rendering of a PyObj, standing in for the Python str
function inside f-strings (total for every object). -/
def pyStrOf : PyObj → String
  | .str s => s
  | .int n => toString n
  | .rat q => toString q
  | .list l => "[" ++ joinWith ", " (l.attach.map (fun x => pyStrOf x.1)) ++ "]"
  | .dict es => "\x7b" ++
      joinWith ", " (es.attach.map (fun x => x.1.1 ++ ": " ++ pyStrOf x.1.2)) ++
      "\x7d"
  | .genObj _ => "<generator object generate>"
termination_by o => sizeOf o
decreasing_by
  · have := List.sizeOf_lt_of_mem x.2
    simp only [PyObj.list.sizeOf_spec]
    omega
  · rcases x with ⟨⟨a, b⟩, hmem⟩
    have h1 := List.sizeOf_lt_of_mem hmem
    simp only [Prod.mk.sizeOf_spec] at h1
    simp only [PyObj.dict.sizeOf_spec]
    omega

/-- Stand-in for json.dumps over the schema dict (the exact rendering
only flows into the instruction text of the system prompt). -/
def jsonDumps (o : PyObj) : String := pyStrOf o

/-- Llama3Client.generate called without a stream argument.  Because
the def contains a yield in its streaming branch, Python treats it as
a generator function: the call builds and returns a generator object
and executes no body code, so no model request happens and the result
is not a string. -/
def Llama3Client.generate (prompt : String) : PyObj :=
  PyObj.genObj prompt

/-- The system message of generate_structured. -/
def structuredSystemPrompt (response_format : PyObj) : String :=
  "You are a helpful assistant that always responds with valid JSON.\nThe response must match the following JSON schema exactly:\n\n" ++
  jsonDumps response_format ++
  "\n\nReturn only the JSON object, without any additional text or markdown formatting."

/-- Llama3Client.generate_structured.  chat maps (system message, user
message) to the content of the model reply; jsonLoads returns none
when parsing would raise JSONDecodeError, the only exception the code
catches.  On parse failure the fallback calls generate, whose value is
the unexecuted generator object. -/
def Llama3Client.generate_structured (chat : String → String → String)
    (jsonLoads : String → Option PyObj) (prompt : String)
    (response_format : PyObj) : PyObj :=
  let response_text := pyStrip (chat (structuredSystemPrompt response_format) prompt)
  let cleaned :=
    if response_text.startsWith "```json" then
      pyDropRight 3 (pyDrop 7 response_text)
    else if response_text.startsWith "```" then
      pyDropRight 3 (pyDrop 3 response_text)
    else response_text
  match jsonLoads cleaned with
  | some obj => obj
  | none =>
    PyObj.dict [("error", PyObj.str "Failed to generate structured response"),
      ("raw_response", Llama3Client.generate prompt)]

/-! ### RAGSystem (src/src/rag_system.py) and the query endpoint (src/app.py)

The embedder and the language model client are held by the orchestrator
as injected collaborators; the embedding becomes a function from text
to a vector and the generator a function from the prompt to the Python
value its call returns.  Every call to a collaborator is recorded in an
event list so that statements about which external calls a code path
makes are statements about the model. -/

/-- An outgoing call to an external collaborator. -/
inductive ExtCall where
  | embed (text : String)
  | gen (prompt : String)
  deriving DecidableEq, Repr

/-- One entry of the sources list in a query response. -/
structure SourceEntry where
  document : PyObj
  score : PyObj
  text : String

/-- The response dict of RAGSystem.query: the four keys question,
answer, sources and timestamp. -/
structure QueryResult where
  question : String
  answer : String
  sources : List SourceEntry
  timestamp : String

/-- The response dict of RAGSystem.query_structured; its answer is the
arbitrary Python value the structured generation returned. -/
structure QSResult where
  question : String
  answer : PyObj
  sources : List SourceEntry
  timestamp : String

/-- Two-decimal rendering of a score, standing in for the .2f format
specification (no claim depends on the rendered digits). -/
def formatF2 (q : ℚ) : String :=
  toString (((q * 100).floor : ℚ) / 100)

/-- One block of the context: document rank, formatted score, text.
Indexing the record with a missing score or text key would raise
KeyError; a non-numeric score would make the .2f format raise. -/
def contextBlock (i : Nat) (chunk : PyDict) : Except String String := do
  let scoreStr ← match dictGet chunk "score" with
    | some (PyObj.rat q) => Except.ok (formatF2 q)
    | some (PyObj.int n) => Except.ok (formatF2 (n : ℚ))
    | some _ => Except.error "ValueError: unknown format code f"
    | none => Except.error "KeyError: score"
  let textStr ← match dictGet chunk "text" with
    | some v => Except.ok (pyStrOf v)
    | none => Except.error "KeyError: text"
  Except.ok ("[Document " ++ toString (i + 1) ++ ", Score: " ++ scoreStr ++
    "]\n" ++ textStr)

/-- The context assembled from the retrieved chunks. -/
def buildContext (chunks : List PyDict) : Except String String := do
  let blocks ← chunks.enum.mapM (fun p => contextBlock p.1 p.2)
  Except.ok (joinWith "\n\n" blocks)

/-- The grounding prompt of RAGSystem.query (an indented triple-quoted
f-string in the source). -/
def buildPrompt (context question : String) : String :=
  "You are a helpful assistant that answers questions based on the provided context.\n        \n        Context:\n        " ++
  context ++
  "\n        \n        Question: " ++ question ++
  "\n        \n        Answer the question based on the context above. If the context does not contain the answer, say \"I do not have enough information to answer this question.\"\n        \n        Provide a concise and accurate answer:"

/-- The prompt of RAGSystem.query_structured. -/
def buildStructuredPrompt (context question : String) : String :=
  "You are a helpful assistant that answers questions based on the provided context.\n        \n        Context:\n        " ++
  context ++
  "\n        \n        Question: " ++ question ++
  "\n        \n        Answer the question based on the context above. If the context does not contain the answer, \n        indicate this in your response.\n        "

/-- One entry of the sources list: document name and score fall back
to defaults through the get method, the text is sliced to 200
characters and an ellipsis is appended.  Slicing a non-string value
and concatenating it with a string would raise. -/
def sourceOf (chunk : PyDict) : Except String SourceEntry :=
  match (dictGet chunk "text").getD (PyObj.str "") with
  | PyObj.str s =>
    Except.ok
      { document := (dictGet chunk "document_name").getD (PyObj.str "Unknown"),
        score := (dictGet chunk "score").getD (PyObj.rat 0),
        text := pyTake 200 s ++ "..." }
  | _ => Except.error "TypeError: text value does not slice to a string"

/-- The sources list of a query response. -/
def buildSources (chunks : List PyDict) : Except String (List SourceEntry) :=
  chunks.mapM sourceOf

/-- The strip method applied to the value returned by the generator
client: only a string has the method, any other object raises
AttributeError.  The real generate returns a generator object, which
is what makes this step fail in the composed system. -/
def pyStripMethod : PyObj → Except String String
  | PyObj.str s => Except.ok (pyStrip s)
  | _ => Except.error "AttributeError: object has no attribute strip"

/-- RAGSystem.query.  The second component lists the collaborator
calls the run performed, in order: the question embedding first, then
the generation.  The method performs no validation of the question.
The source order is kept: retrieval, context, prompt, generation,
sources, then the strip of the answer inside the result dict. -/
def RAGSystem.query (embed : String → List ℚ) (gen : String → PyObj)
    (st : FAISSStore) (question : String) (top_k : Nat) (now : String) :
    Except String QueryResult × List ExtCall :=
  let qe := embed question
  let calls0 := [ExtCall.embed question]
  match st.similarity_search qe top_k with
  | .error e => (.error e, calls0)
  | .ok relevant =>
    match buildContext relevant with
    | .error e => (.error e, calls0)
    | .ok context =>
      let prompt := buildPrompt context question
      let answerObj := gen prompt
      let calls1 := calls0 ++ [ExtCall.gen prompt]
      match buildSources relevant with
      | .error e => (.error e, calls1)
      | .ok sources =>
        match pyStripMethod answerObj with
        | .error e => (.error e, calls1)
        | .ok answer =>
          (.ok { question := question, answer := answer,
                 sources := sources, timestamp := now }, calls1)

/-- RAGSystem.query_structured: same retrieval and context step, then
the structured generation; its returned value is stored unchanged
under the answer key. -/
def RAGSystem.query_structured (embed : String → List ℚ)
    (genStructured : String → PyObj) (st : FAISSStore) (question : String)
    (top_k : Nat) (now : String) : Except String QSResult × List ExtCall :=
  let qe := embed question
  let calls0 := [ExtCall.embed question]
  match st.similarity_search qe top_k with
  | .error e => (.error e, calls0)
  | .ok relevant =>
    match buildContext relevant with
    | .error e => (.error e, calls0)
    | .ok context =>
      let prompt := buildStructuredPrompt context question
      let response := genStructured prompt
      let calls1 := calls0 ++ [ExtCall.gen prompt]
      match buildSources relevant with
      | .error e => (.error e, calls1)
      | .ok sources =>
        (.ok { question := question, answer := response,
               sources := sources, timestamp := now }, calls1)

/-- An HTTP error response raised by the API layer. -/
structure HTTPError where
  status : Nat
  detail : String
  deriving DecidableEq, Repr

/-- The query endpoint of app.py.  A whitespace-only question is
rejected with a 400 before the orchestrator is reached.  Otherwise the
handler invokes rag_system.query with a stream keyword argument that
RAGSystem.query does not accept, so Python raises TypeError at the
call site, before the method body (and hence any embedding or
generation) runs; the generic handler turns it into a 500.  In both
paths no collaborator call is made. -/
def appQuery (question : String) : Except HTTPError QueryResult × List ExtCall :=
  if pyStrip question = "" then
    (.error { status := 400, detail := "Question cannot be empty" }, [])
  else
    (.error { status := 500,
              detail := "Error processing query: query() got an unexpected keyword argument stream" },
      [])


/-! ### Claims C9, C2, C3, C4, C7 -/

/-- C9: for every index state, add_embeddings with an empty texts list
or an empty embeddings list returns immediately and leaves both the
vector index and the metadata list unchanged, with no error. -/
theorem C9_add_embeddings_empty_noop (st : FAISSStore) (texts : List String)
    (embeddings : List (List ℚ)) (metadatas : Option (List PyDict))
    (h : texts = [] ∨ embeddings = []) :
    st.add_embeddings texts embeddings metadatas = (none, st) := by
  unfold FAISSStore.add_embeddings
  rw [if_pos h]

theorem C9_witness :
    ([] = ([] : List String) ∨ [[(1 : ℚ)]] = ([] : List (List ℚ))) ∧
    (freshStore 2).add_embeddings [] [[(1 : ℚ)]] none = (none, freshStore 2) :=
  ⟨Or.inl rfl, C9_add_embeddings_empty_noop (freshStore 2) [] [[(1 : ℚ)]] none
    (Or.inl rfl)⟩

/-- C2 counterexample: a call whose texts list is empty but whose
embeddings list contains a vector of the wrong dimension returns
silently, with no error of any kind, because of the early return on
falsy arguments; the claim as stated demands a dimension-mismatch
failure for every such batch. -/
theorem C2_counterexample :
    (∃ e ∈ [[(1 : ℚ)]], e.length ≠ (freshStore 2).vector_dim) ∧
    (freshStore 2).add_embeddings [] [[(1 : ℚ)]] none = (none, freshStore 2) := by
  constructor
  · exact ⟨[1], by simp, by simp [freshStore]⟩
  · rfl

/-- C2 amended: for every store whose index dimension agrees with its
configured vector_dim (as holds for every store the class itself
builds) and every batch with a non-empty texts list in which some
embedding has a length other than vector_dim, add_embeddings raises
and both containers are exactly as before the call. -/
theorem C2_amended_dimension_mismatch_atomic (st : FAISSStore)
    (texts : List String) (embeddings : List (List ℚ))
    (metadatas : Option (List PyDict)) (hd : st.index.d = st.vector_dim)
    (ht : texts ≠ []) (he : ∃ e ∈ embeddings, e.length ≠ st.vector_dim) :
    ∃ msg, st.add_embeddings texts embeddings metadatas = (some msg, st) := by
  obtain ⟨e, hmem, hlen⟩ := he
  have hemb : embeddings ≠ [] := by
    intro h
    rw [h] at hmem
    exact absurd hmem (List.not_mem_nil e)
  unfold FAISSStore.add_embeddings
  rw [if_neg (by
    intro h
    rcases h with h | h
    · exact ht h
    · exact hemb h)]
  match hsh : npShape embeddings with
  | none => exact ⟨"ValueError: inhomogeneous array", by simp⟩
  | some width =>
    have hwidth : width ≠ st.vector_dim := by
      cases embeddings with
      | nil => exact absurd rfl hemb
      | cons r rs =>
        unfold npShape at hsh
        by_cases hall : rs.all (fun x => x.length = r.length)
        · simp only [hall, if_true, Option.some.injEq] at hsh
          have : e.length = r.length := by
            rcases List.mem_cons.mp hmem with h | h
            · rw [h]
            · exact of_decide_eq_true (List.all_eq_true.mp hall e h)
          rw [← hsh, ← this]
          exact hlen
        · simp [hall] at hsh
    by_cases hnt : st.index.ntotal = 0
    · refine ⟨"AssertionError: d == self.d", ?_⟩
      simp only [hnt, if_pos rfl, Faiss.add, hd, if_pos hwidth]
      simp [hnt]
    · refine ⟨"ValueError: Dimensionality mismatch", ?_⟩
      simp [hnt, hwidth, Faiss.add]

theorem C2_witness :
    ((freshStore 2).index.d = (freshStore 2).vector_dim ∧
      (["a"] : List String) ≠ [] ∧
      (∃ e ∈ [[(1 : ℚ)]], e.length ≠ (freshStore 2).vector_dim)) ∧
    (∃ msg, (freshStore 2).add_embeddings ["a"] [[(1 : ℚ)]] none =
      (some msg, freshStore 2)) :=
  ⟨⟨rfl, by simp, ⟨[1], by simp, by simp [freshStore]⟩⟩,
    C2_amended_dimension_mismatch_atomic (freshStore 2) ["a"] [[(1 : ℚ)]] none
      rfl (by simp) ⟨[1], by simp, by simp [freshStore]⟩⟩

/-- C3 evaluation at the failing input: a persistence location whose
index artifact is present and readable with one stored vector while
the metadata sidecar file is missing.  Construction succeeds and
yields the loaded index paired with an empty metadata list, i.e. a
non-empty vector index with empty metadata, instead of the fresh empty
fallback the claim requires. -/
theorem C3_code_evaluation :
    (FAISSStore.construct 2
      { indexFile := DiskArtifact.stored { d := 2, vecs := [[0, 0]] },
        metaFile := DiskArtifact.missing }).index.ntotal = 1 ∧
    (FAISSStore.construct 2
      { indexFile := DiskArtifact.stored { d := 2, vecs := [[0, 0]] },
        metaFile := DiskArtifact.missing }).metadata = [] :=
  ⟨rfl, rfl⟩

/-- C4 counterexample: called with the empty question, the query
method of the orchestrator performs the embedding call and the
generation call (its run is recorded in the call trace); it performs
no validation, so the claim that it fails with a validation error and
contacts neither collaborator is false of RAGSystem.query. -/
theorem C4_counterexample :
    (RAGSystem.query (fun _ => [0, 0]) Llama3Client.generate (freshStore 2)
      "" 3 "TS").2 =
      [ExtCall.embed "", ExtCall.gen (buildPrompt "" "")] := by
  rfl

/-- C4 amended: the rejection of empty and whitespace-only questions
lives in the API layer, not the orchestrator: the query endpoint
returns a 400 validation error before rag_system.query is invoked, and
neither the Embedder nor the Generator is called. -/
theorem C4_amended_endpoint_validates (q : String) (h : pyStrip q = "") :
    appQuery q =
      (Except.error { status := 400, detail := "Question cannot be empty" },
        []) := by
  unfold appQuery
  rw [if_pos h]

theorem C4_witness :
    pyStrip " \t " = "" ∧
    appQuery " \t " =
      (Except.error { status := 400, detail := "Question cannot be empty" },
        []) :=
  ⟨rfl, C4_amended_endpoint_validates " \t " rfl⟩

/-- C7 evaluation at the failing input: a structured query whose model
reply is not JSON.  query_structured does not raise and its answer is
the error dict, but the raw_response value is the unexecuted generator
object returned by calling generate (a generator function), not the
text of a fallback generation. -/
theorem C7_code_evaluation :
    (RAGSystem.query_structured (fun _ => [0, 0])
        (fun p => Llama3Client.generate_structured (fun _ _ => "hello")
          (fun _ => none) p (PyObj.dict [("type", PyObj.str "object")]))
        (freshStore 2) "q" 3 "TS").1 =
      Except.ok
        { question := "q",
          answer := PyObj.dict
            [("error", PyObj.str "Failed to generate structured response"),
             ("raw_response", PyObj.genObj (buildStructuredPrompt "" "q"))],
          sources := [],
          timestamp := "TS" } ∧
    ∀ s, PyObj.genObj (buildStructuredPrompt "" "q") ≠ PyObj.str s :=
  ⟨rfl, fun _ h => PyObj.noConfusion h⟩


/-! ### Claim C1: index/metadata synchronisation across batches -/

/-- The three parallel arguments of one add_embeddings call. -/
structure Batch where
  texts : List String
  embeddings : List (List ℚ)
  metadatas : List PyDict

/-- The state after one call (an exception leaves the state as the
call returned it). -/
def applyBatch (st : FAISSStore) (b : Batch) : FAISSStore :=
  (st.add_embeddings b.texts b.embeddings (some b.metadatas)).2

/-- A sequence of add_embeddings calls. -/
def runBatches (st : FAISSStore) (bs : List Batch) : FAISSStore :=
  bs.foldl applyBatch st

/-- The hypotheses of the claim on one call: the three lists have
equal length and every embedding has the index dimension. -/
def goodBatch (dim : Nat) (b : Batch) : Prop :=
  b.texts.length = b.embeddings.length ∧
  b.texts.length = b.metadatas.length ∧
  ∀ e ∈ b.embeddings, e.length = dim

/-- No caller metadata dict carries the key index (such a key would
override the computed position in the record dict display). -/
def noIndexKey (b : Batch) : Prop :=
  ∀ m ∈ b.metadatas, ∀ kv ∈ m, kv.1 ≠ "index"

/-- The synchronisation invariant of the store: the index dimension
matches the configuration, the vector count equals the metadata
length, and the record at every position i carries index i. -/
def StoreInv (st : FAISSStore) : Prop :=
  st.index.d = st.vector_dim ∧
  st.index.ntotal = st.metadata.length ∧
  ∀ i (hi : i < st.metadata.length),
    dictGet (st.metadata.get ⟨i, hi⟩) "index" = some (PyObj.int i)

theorem dictGet_pyDictLit_absent (base spread : PyDict) (k : String)
    (h : ∀ kv ∈ spread, kv.1 ≠ k) :
    dictGet (pyDictLit base spread) k = dictGet base k := by
  induction spread generalizing base with
  | nil => rfl
  | cons e es ih =>
    have : pyDictLit base (e :: es) = pyDictLit (updateKey base e.1 e.2) es := rfl
    rw [this, ih _ (fun kv hkv => h kv (List.mem_cons_of_mem e hkv)),
      dictGet_updateKey_other base e.1 k e.2
        (fun hk => h e (List.mem_cons_self e es) hk.symm)]

theorem dictGet_mkRecord_index (t : String) (v : Int) (m : PyDict)
    (h : ∀ kv ∈ m, kv.1 ≠ "index") :
    dictGet (mkRecord t v m) "index" = some (PyObj.int v) := by
  unfold mkRecord
  rw [dictGet_pyDictLit_absent _ m "index" h]
  rfl

theorem add_embeddings_good_eq (st : FAISSStore) (texts : List String)
    (embeddings : List (List ℚ)) (metadatas : List PyDict)
    (hd : st.index.d = st.vector_dim)
    (hlen : texts.length = embeddings.length)
    (hall : ∀ e ∈ embeddings, e.length = st.vector_dim)
    (ht : texts ≠ []) :
    st.add_embeddings texts embeddings (some metadatas) =
      (none,
        { st with
          index := { d := st.index.d, vecs := st.index.vecs ++ embeddings },
          metadata := st.metadata ++ (texts.zip metadatas).enum.map
            (fun p => mkRecord p.2.1
              (((st.index.vecs ++ embeddings).length : Int) -
                (texts.length : Int) + (p.1 : Int)) p.2.2) }) := by
  have hemb : embeddings ≠ [] := by
    intro h
    apply ht
    rw [← List.length_eq_zero, hlen, h]
    rfl
  obtain ⟨r, rs, rfl⟩ := List.exists_cons_of_ne_nil hemb
  have hr : r.length = st.vector_dim := hall r (List.mem_cons_self r rs)
  have hall2 : (rs.all fun x => decide (x.length = r.length)) = true := by
    apply List.all_eq_true.mpr
    intro x hx
    have := hall x (List.mem_cons_of_mem r hx)
    simp [this, hr]
  have hsh : npShape (r :: rs) = some r.length := by
    simp [npShape, hall2]
  have hadd : st.index.add r.length (r :: rs) =
      (none, { d := st.index.d, vecs := st.index.vecs ++ r :: rs }) := by
    unfold Faiss.add
    rw [if_neg (by
      rw [hr, hd]
      exact fun hne => hne rfl)]
  have hbranch :
      (if st.index.ntotal = 0 then st.index.add r.length (r :: rs)
        else if r.length ≠ st.vector_dim then
          (some "ValueError: Dimensionality mismatch", st.index)
        else st.index.add r.length (r :: rs)) =
      (none, { d := st.index.d, vecs := st.index.vecs ++ r :: rs }) := by
    by_cases hnt : st.index.ntotal = 0
    · rw [if_pos hnt, hadd]
    · rw [if_neg hnt, if_neg (by
        rw [hr]
        exact fun hne => hne rfl), hadd]
  unfold FAISSStore.add_embeddings
  rw [if_neg (by
    intro hor
    rcases hor with h | h
    · exact ht h
    · exact hemb h)]
  dsimp only
  rw [hsh]
  dsimp only
  rw [hbranch]
  dsimp only [Option.getD, Faiss.ntotal]

theorem applyBatch_vector_dim (st : FAISSStore) (b : Batch) :
    (applyBatch st b).vector_dim = st.vector_dim := by
  unfold applyBatch FAISSStore.add_embeddings
  split
  · rfl
  · dsimp only
    split
    · rfl
    · split
      · rfl
      · rfl

theorem StoreInv_applyBatch (st : FAISSStore) (b : Batch)
    (hinv : StoreInv st) (hb : goodBatch st.vector_dim b)
    (hni : noIndexKey b) : StoreInv (applyBatch st b) := by
  obtain ⟨hd, hcount, hidx⟩ := hinv
  obtain ⟨h1, h2, h3⟩ := hb
  by_cases ht : b.texts = []
  · have he : b.embeddings = [] := by
      rw [← List.length_eq_zero, ← h1, ht]
      rfl
    unfold applyBatch FAISSStore.add_embeddings
    rw [if_pos (Or.inl ht)]
    exact ⟨hd, hcount, hidx⟩
  · have heq := add_embeddings_good_eq st b.texts b.embeddings b.metadatas
      hd h1 h3 ht
    unfold applyBatch
    rw [heq]
    dsimp only
    refine ⟨hd, ?_, ?_⟩
    · have hcnt : st.index.vecs.length = st.metadata.length := hcount
      simp only [Faiss.ntotal, List.length_append, List.length_map,
        List.enum_length, List.length_zip]
      omega
    · intro i hi
      simp only [List.length_append, List.length_map, List.enum_length,
        List.length_zip] at hi
      by_cases hlt : i < st.metadata.length
      · rw [List.get_eq_getElem, List.getElem_append_left hlt]
        exact hidx i hlt
      · have hj : i - st.metadata.length <
            ((b.texts.zip b.metadatas).enum.map
              (fun p => mkRecord p.2.1
                (((st.index.vecs ++ b.embeddings).length : Int) -
                  (b.texts.length : Int) + (p.1 : Int)) p.2.2)).length := by
          simp only [List.length_map, List.enum_length, List.length_zip]
          omega
        rw [List.get_eq_getElem,
          List.getElem_append_right (Nat.le_of_not_lt hlt)]
        set j := i - st.metadata.length with hjdef
        have hjz : j < (b.texts.zip b.metadatas).length := by
          simp only [List.length_zip]
          omega
        rw [List.getElem_map, List.getElem_enum]
        have hj2 : j < b.metadatas.length := by
          simp only [List.length_zip] at hjz
          omega
        have hsnd : (b.texts.zip b.metadatas)[j].2 =
            b.metadatas.get ⟨j, hj2⟩ := by
          rw [List.getElem_zip]
          rfl
        rw [dictGet_mkRecord_index _ _ _ (by
          rw [hsnd]
          exact hni _ (List.getElem_mem _))]
        congr 1
        congr 1
        have hcnt : st.index.vecs.length = st.metadata.length := hcount
        simp only [List.length_append]
        omega

theorem runBatches_inv (bs : List Batch) (st : FAISSStore)
    (hinv : StoreInv st) (h : ∀ b ∈ bs, goodBatch st.vector_dim b ∧ noIndexKey b) :
    StoreInv (runBatches st bs) := by
  induction bs generalizing st with
  | nil => exact hinv
  | cons b rest ih =>
    have hb := h b (List.mem_cons_self b rest)
    have step := StoreInv_applyBatch st b hinv hb.1 hb.2
    have hdim := applyBatch_vector_dim st b
    exact ih (applyBatch st b) step (fun x hx => by
      rw [hdim]
      exact h x (List.mem_cons_of_mem b hx))

/-- C1 counterexample: one call whose lists all have length one, whose
embedding has the configured dimension, and whose metadata dict
carries the key index with value 99.  The double-star spread in the
record display overrides the computed position, so the record at
position 0 carries index 99, not 0 as the claim states. -/
theorem C1_counterexample :
    goodBatch 2 ⟨["a"], [[0, 0]], [[("index", PyObj.int 99)]]⟩ ∧
    ((runBatches (freshStore 2)
        [⟨["a"], [[0, 0]], [[("index", PyObj.int 99)]]⟩]).metadata.map
      (fun r => dictGet r "index")) = [some (PyObj.int 99)] ∧
    some (PyObj.int 99) ≠ some (PyObj.int 0) := by
  refine ⟨⟨rfl, rfl, ?_⟩, rfl, by simp⟩
  intro e he
  simp only [List.mem_singleton] at he
  rw [he]
  rfl

/-- C1 amended: for every sequence of add_embeddings calls from a
freshly constructed store in which, per call, texts, embeddings and
metadatas have equal length, every embedding has length vector_dim,
and no metadata dict carries the key index, the vector count ntotal
equals the metadata length after every call and the record at every
metadata position i carries index i, its absolute position across all
batches. -/
theorem C1_amended_index_metadata_sync (dim : Nat) (bs : List Batch)
    (h : ∀ b ∈ bs, goodBatch dim b ∧ noIndexKey b) :
    (runBatches (freshStore dim) bs).index.ntotal =
      (runBatches (freshStore dim) bs).metadata.length ∧
    ∀ i (hi : i < (runBatches (freshStore dim) bs).metadata.length),
      dictGet ((runBatches (freshStore dim) bs).metadata.get ⟨i, hi⟩)
        "index" = some (PyObj.int i) := by
  have base : StoreInv (freshStore dim) := by
    refine ⟨rfl, rfl, ?_⟩
    intro i hi
    exact absurd hi (by simp [freshStore])
  have := runBatches_inv bs (freshStore dim) base h
  exact ⟨this.2.1, this.2.2⟩

theorem C1_witness :
    (∀ b ∈ [Batch.mk ["a"] [[(0 : ℚ), 0]] [[("doc", PyObj.str "d")]]],
      goodBatch 2 b ∧ noIndexKey b) ∧
    ((runBatches (freshStore 2)
        [Batch.mk ["a"] [[(0 : ℚ), 0]] [[("doc", PyObj.str "d")]]]).index.ntotal =
      (runBatches (freshStore 2)
        [Batch.mk ["a"] [[(0 : ℚ), 0]] [[("doc", PyObj.str "d")]]]).metadata.length ∧
    ∀ i (hi : i < (runBatches (freshStore 2)
        [Batch.mk ["a"] [[(0 : ℚ), 0]] [[("doc", PyObj.str "d")]]]).metadata.length),
      dictGet ((runBatches (freshStore 2)
        [Batch.mk ["a"] [[(0 : ℚ), 0]] [[("doc", PyObj.str "d")]]]).metadata.get
        ⟨i, hi⟩) "index" = some (PyObj.int i)) := by
  have harg : ∀ b ∈ [Batch.mk ["a"] [[(0 : ℚ), 0]] [[("doc", PyObj.str "d")]]],
      goodBatch 2 b ∧ noIndexKey b := by
    intro b hb
    simp only [List.mem_singleton] at hb
    rw [hb]
    refine ⟨⟨rfl, rfl, ?_⟩, ?_⟩
    · intro e he
      simp only [List.mem_singleton] at he
      rw [he]
      rfl
    · intro m hm kv hkv
      simp only [List.mem_singleton] at hm
      rw [hm] at hkv
      simp only [List.mem_singleton] at hkv
      rw [hkv]
      simp
  exact ⟨harg, C1_amended_index_metadata_sync 2 _ harg⟩


/-! ### Claim C6: similarity_search ordering and bounds -/

/-- The score a result record reports (every result of
similarity_search has its score key set to a rational). -/
def scoreOf (r : PyDict) : ℚ :=
  match dictGet r "score" with
  | some (PyObj.rat q) => q
  | _ => 0

/-- Distance order on (label, distance) pairs. -/
def distLE (a b : Int × ℚ) : Prop := a.2 ≤ b.2

theorem mem_sortedInsert (p x : Int × ℚ) (l : List (Int × ℚ)) :
    x ∈ sortedInsert p l ↔ x = p ∨ x ∈ l := by
  induction l with
  | nil => simp [sortedInsert]
  | cons q rest ih =>
    unfold sortedInsert
    by_cases h : p.2 ≤ q.2
    · rw [if_pos h]
      simp only [List.mem_cons]
    · rw [if_neg h]
      simp only [List.mem_cons, ih]
      tauto

theorem pairwise_sortedInsert (p : Int × ℚ) (l : List (Int × ℚ))
    (h : l.Pairwise distLE) : (sortedInsert p l).Pairwise distLE := by
  induction l with
  | nil => simp [sortedInsert, List.pairwise_singleton]
  | cons q rest ih =>
    rw [List.pairwise_cons] at h
    unfold sortedInsert
    by_cases hle : p.2 ≤ q.2
    · rw [if_pos hle]
      refine List.Pairwise.cons ?_ (List.Pairwise.cons h.1 h.2)
      intro x hx
      rcases List.mem_cons.mp hx with hx | hx
      · rw [hx]
        exact hle
      · exact le_trans hle (h.1 x hx)
    · rw [if_neg hle]
      refine List.Pairwise.cons ?_ (ih h.2)
      intro x hx
      rcases (mem_sortedInsert p x rest).mp hx with hx | hx
      · rw [hx]
        exact le_of_not_le hle
      · exact h.1 x hx

theorem pairwise_sortPairs (l : List (Int × ℚ)) :
    (sortPairs l).Pairwise distLE := by
  induction l with
  | nil => exact List.Pairwise.nil
  | cons p rest ih => exact pairwise_sortedInsert p (sortPairs rest) ih

theorem scoreOf_searchKeep (md : List PyDict) (p : Int × ℚ) (r : PyDict)
    (h : searchKeep md p = some r) : scoreOf r = p.2 := by
  unfold searchKeep at h
  by_cases hc : p.1 < 0 ∨ (md.length : Int) ≤ p.1
  · rw [if_pos hc] at h
    exact absurd h (by simp)
  · rw [if_neg hc, Option.some.injEq] at h
    rw [← h]
    unfold scoreOf
    rw [dictGet_updateKey_self]

theorem searchKeep_pad (md : List PyDict) :
    searchKeep md ((-1 : Int), (0 : ℚ)) = none := by
  unfold searchKeep
  rw [if_pos]
  exact Or.inl (by norm_num)

theorem filterMap_pad_nil (md : List PyDict) (n : Nat) :
    (List.replicate n ((-1 : Int), (0 : ℚ))).filterMap (searchKeep md) = [] := by
  induction n with
  | zero => rfl
  | succ m ih =>
    rw [List.replicate_succ, List.filterMap_cons, searchKeep_pad]
    exact ih

theorem pairwise_scores_filterMap (md : List PyDict) (l : List (Int × ℚ))
    (h : l.Pairwise distLE) :
    ((l.filterMap (searchKeep md)).map scoreOf).Pairwise (· ≤ ·) := by
  induction l with
  | nil => exact List.Pairwise.nil
  | cons p rest ih =>
    rw [List.pairwise_cons] at h
    rw [List.filterMap_cons]
    cases hk : searchKeep md p with
    | none => exact ih h.2
    | some r =>
      rw [List.map_cons]
      refine List.Pairwise.cons ?_ (ih h.2)
      intro y hy
      rw [List.mem_map] at hy
      obtain ⟨r2, hr2, rfl⟩ := hy
      rw [List.mem_filterMap] at hr2
      obtain ⟨p2, hp2, hk2⟩ := hr2
      rw [scoreOf_searchKeep md p r hk, scoreOf_searchKeep md p2 r2 hk2]
      exact h.1 p2 hp2

/-- C6 counterexample: on a store holding one two-dimensional vector
and one metadata record, a search with k = 0 raises the k-positivity
assertion of the faiss wrapper instead of returning a result list, and
a search with a one-dimensional query vector raises the dimension
assertion; the claim quantifies over every k and every query vector. -/
theorem C6_counterexample :
    FAISSStore.similarity_search
      { vector_dim := 2, index := { d := 2, vecs := [[0, 0]] },
        metadata := [[("text", PyObj.str "t")]] } [0, 0] 0 =
      Except.error "AssertionError: k > 0" ∧
    FAISSStore.similarity_search
      { vector_dim := 2, index := { d := 2, vecs := [[0, 0]] },
        metadata := [[("text", PyObj.str "t")]] } [(0 : ℚ)] 5 =
      Except.error "AssertionError: d == self.d" :=
  ⟨rfl, rfl⟩

/-- C6 amended: for every index state, every query vector of the index
dimension and every positive k, similarity_search succeeds; the result
scores are non-decreasing, at most k results are returned, the result
is empty when the index is empty, and every result is a copy of a
record at a valid metadata position with its score key set (labels
outside the metadata range having been skipped). -/
theorem C6_search_sorted_bounded (st : FAISSStore) (q : List ℚ) (k : Nat)
    (hq : q.length = st.index.d) (hk : 0 < k) :
    ∃ res, st.similarity_search q k = Except.ok res ∧
      res.length ≤ k ∧
      (res.map scoreOf).Pairwise (· ≤ ·) ∧
      (st.index.vecs = [] → res = []) ∧
      ∀ r ∈ res, ∃ i, ∃ hi : i < st.metadata.length, ∃ dval : ℚ,
        r = updateKey (st.metadata.get ⟨i, hi⟩) "score" (PyObj.rat dval) := by
  by_cases hempty : st.index.ntotal = 0
  · refine ⟨[], ?_, by simp, List.Pairwise.nil, fun _ => rfl, by simp⟩
    unfold FAISSStore.similarity_search
    rw [if_pos hempty]
  · have hsearch : st.index.search q k =
        Except.ok (((sortPairs (st.index.vecs.enum.map
            (fun p => ((p.1 : Int), l2sq q p.2)))).take k) ++
          List.replicate (k - ((sortPairs (st.index.vecs.enum.map
            (fun p => ((p.1 : Int), l2sq q p.2)))).take k).length)
            ((-1 : Int), (0 : ℚ))) := by
      unfold Faiss.search
      rw [if_neg (by
        rw [hq]
        exact fun hne => hne rfl), if_neg (Nat.pos_iff_ne_zero.mp hk)]
    unfold FAISSStore.similarity_search
    rw [if_neg hempty, hsearch]
    refine ⟨_, rfl, ?_, ?_, ?_, ?_⟩
    · rw [List.filterMap_append, filterMap_pad_nil, List.append_nil]
      calc ((sortPairs _).take k |>.filterMap (searchKeep st.metadata)).length
          ≤ ((sortPairs (st.index.vecs.enum.map
              (fun p => ((p.1 : Int), l2sq q p.2)))).take k).length :=
            List.length_filterMap_le _ _
        _ ≤ k := by
            rw [List.length_take]
            exact min_le_left _ _
    · rw [List.filterMap_append, filterMap_pad_nil, List.append_nil]
      exact pairwise_scores_filterMap st.metadata _
        ((pairwise_sortPairs _).sublist (List.take_sublist _ _))
    · intro hv
      exact absurd (by rw [Faiss.ntotal, hv]; rfl) hempty
    · intro r hr
      rw [List.filterMap_append, filterMap_pad_nil, List.append_nil,
        List.mem_filterMap] at hr
      obtain ⟨p, _, hkeep⟩ := hr
      unfold searchKeep at hkeep
      by_cases hc : p.1 < 0 ∨ (st.metadata.length : Int) ≤ p.1
      · rw [if_pos hc] at hkeep
        exact absurd hkeep (by simp)
      · rw [if_neg hc, Option.some.injEq] at hkeep
        push_neg at hc
        refine ⟨p.1.toNat, ?_, p.2, ?_⟩
        · omega
        · rw [← hkeep]
          congr 1
          rw [List.get_eq_getElem, List.getD_eq_getElem]

theorem C6_witness :
    (([(0 : ℚ), 1] : List ℚ).length =
      (FAISSStore.mk 2 (Faiss.mk 2 [[0, 0], [3, 4]])
        [[("text", PyObj.str "a")], [("text", PyObj.str "b")]]).index.d ∧
      0 < 5) ∧
    (∃ res, (FAISSStore.mk 2 (Faiss.mk 2 [[0, 0], [3, 4]])
        [[("text", PyObj.str "a")], [("text", PyObj.str "b")]]).similarity_search
        [(0 : ℚ), 1] 5 = Except.ok res ∧
      res.length ≤ 5 ∧
      (res.map scoreOf).Pairwise (· ≤ ·) ∧
      ((FAISSStore.mk 2 (Faiss.mk 2 [[0, 0], [3, 4]])
        [[("text", PyObj.str "a")], [("text", PyObj.str "b")]]).index.vecs = [] →
        res = []) ∧
      ∀ r ∈ res, ∃ i, ∃ hi : i < (FAISSStore.mk 2 (Faiss.mk 2 [[0, 0], [3, 4]])
        [[("text", PyObj.str "a")], [("text", PyObj.str "b")]]).metadata.length,
        ∃ dval : ℚ,
        r = updateKey ((FAISSStore.mk 2 (Faiss.mk 2 [[0, 0], [3, 4]])
          [[("text", PyObj.str "a")], [("text", PyObj.str "b")]]).metadata.get
          ⟨i, hi⟩) "score" (PyObj.rat dval)) :=
  ⟨⟨rfl, by norm_num⟩,
    C6_search_sorted_bounded
      (FAISSStore.mk 2 (Faiss.mk 2 [[0, 0], [3, 4]])
        [[("text", PyObj.str "a")], [("text", PyObj.str "b")]])
      [(0 : ℚ), 1] 5 rfl (by norm_num)⟩


/-! ### Claim C8: shape of the query response -/

/-- The text a retrieved record carries, when it is a string (the
slice in the sources construction needs a string there). -/
def textOfRec (r : PyDict) : String :=
  match dictGet r "text" with
  | some (PyObj.str s) => s
  | _ => ""

/-- The record carries a present, string-valued text key. -/
def textPresentStr (r : PyDict) : Bool :=
  match dictGet r "text" with
  | some (PyObj.str _) => true
  | _ => false

/-- The source entry the code builds for one retrieved record with a
string text. -/
def srcEntryOf (r : PyDict) : SourceEntry :=
  { document := (dictGet r "document_name").getD (PyObj.str "Unknown"),
    score := (dictGet r "score").getD (PyObj.rat 0),
    text := pyTake 200 (textOfRec r) ++ "..." }

theorem mapM_except_ok {α β ε : Type} (f : α → Except ε β) (l : List α)
    (h : ∀ a ∈ l, ∃ b, f a = Except.ok b) :
    ∃ bs, l.mapM f = Except.ok bs := by
  induction l with
  | nil => exact ⟨[], rfl⟩
  | cons a rest ih =>
    obtain ⟨b, hb⟩ := h a (List.mem_cons_self a rest)
    obtain ⟨bs, hbs⟩ := ih (fun x hx => h x (List.mem_cons_of_mem a hx))
    refine ⟨b :: bs, ?_⟩
    rw [List.mapM_cons, hb, hbs]
    rfl

theorem mapM_except_map {α β ε : Type} (f : α → Except ε β) (g : α → β)
    (l : List α) (h : ∀ a ∈ l, f a = Except.ok (g a)) :
    l.mapM f = Except.ok (l.map g) := by
  induction l with
  | nil => rfl
  | cons a rest ih =>
    rw [List.mapM_cons, h a (List.mem_cons_self a rest),
      ih (fun x hx => h x (List.mem_cons_of_mem a hx))]
    rfl

theorem similarity_search_score (st : FAISSStore) (q : List ℚ) (k : Nat)
    (rs : List PyDict) (h : st.similarity_search q k = Except.ok rs) :
    ∀ r ∈ rs, ∃ dv : ℚ, dictGet r "score" = some (PyObj.rat dv) := by
  unfold FAISSStore.similarity_search at h
  by_cases hempty : st.index.ntotal = 0
  · rw [if_pos hempty] at h
    cases h
    intro r hr
    exact absurd hr (List.not_mem_nil r)
  · rw [if_neg hempty] at h
    cases hs : st.index.search q k with
    | error e =>
      rw [hs] at h
      cases h
    | ok pairs =>
      rw [hs] at h
      cases h
      intro r hr
      rw [List.mem_filterMap] at hr
      obtain ⟨p, _, hkeep⟩ := hr
      unfold searchKeep at hkeep
      by_cases hc : p.1 < 0 ∨ (st.metadata.length : Int) ≤ p.1
      · rw [if_pos hc] at hkeep
        exact absurd hkeep (by simp)
      · rw [if_neg hc, Option.some.injEq] at hkeep
        exact ⟨p.2, by rw [← hkeep, dictGet_updateKey_self]⟩

theorem sourceOf_eq (r : PyDict) (h : textPresentStr r = true) :
    sourceOf r = Except.ok (srcEntryOf r) := by
  unfold sourceOf srcEntryOf textOfRec
  unfold textPresentStr at h
  cases hg : dictGet r "text" with
  | none =>
    rw [hg] at h
    exact absurd h (by simp)
  | some v =>
    rw [hg] at h
    cases v with
    | str s => simp [Option.getD]
    | int n => exact absurd h (by simp)
    | rat q => exact absurd h (by simp)
    | list l => exact absurd h (by simp)
    | dict es => exact absurd h (by simp)
    | genObj p => exact absurd h (by simp)

theorem contextBlock_ok (i : Nat) (r : PyDict)
    (hscore : ∃ dv : ℚ, dictGet r "score" = some (PyObj.rat dv))
    (htext : textPresentStr r = true) :
    ∃ s, contextBlock i r = Except.ok s := by
  obtain ⟨dv, hdv⟩ := hscore
  unfold contextBlock
  rw [hdv]
  unfold textPresentStr at htext
  cases hg : dictGet r "text" with
  | none =>
    rw [hg] at htext
    exact absurd htext (by simp)
  | some v =>
    exact ⟨_, rfl⟩

theorem buildContext_ok (rs : List PyDict)
    (hscore : ∀ r ∈ rs, ∃ dv : ℚ, dictGet r "score" = some (PyObj.rat dv))
    (htext : ∀ r ∈ rs, textPresentStr r = true) :
    ∃ ctx, buildContext rs = Except.ok ctx := by
  unfold buildContext
  have h : ∀ p ∈ rs.enum, ∃ s, contextBlock p.1 p.2 = Except.ok s := by
    intro p hp
    have hmem : p.2 ∈ rs := by
      rw [List.mem_enum_iff_getElem?] at hp
      exact List.getElem?_mem hp
    exact contextBlock_ok p.1 p.2 (hscore p.2 hmem) (htext p.2 hmem)
  obtain ⟨blocks, hblocks⟩ := mapM_except_ok _ rs.enum h
  refine ⟨joinWith "\n\n" blocks, ?_⟩
  rw [hblocks]
  rfl

/-- C8: for every non-empty question, if retrieval succeeds and every
retrieved chunk carries a string text, the result of query is the
record with exactly the keys question, answer, sources and timestamp;
every sources entry carries the document name of its chunk (with the
Unknown default), the score of its chunk, and the 200-character
preview of the chunk text followed by an ellipsis marker. -/
theorem C8_query_result_shape (embed : String → List ℚ) (g : String → String)
    (st : FAISSStore) (question : String) (k : Nat) (now : String)
    (rs : List PyDict) (_hq : question ≠ "")
    (hsearch : st.similarity_search (embed question) k = Except.ok rs)
    (htext : ∀ r ∈ rs, textPresentStr r = true) :
    ∃ ctx, buildContext rs = Except.ok ctx ∧
      (RAGSystem.query embed (fun p => PyObj.str (g p)) st question k now).1 =
        Except.ok
          { question := question,
            answer := pyStrip (g (buildPrompt ctx question)),
            sources := rs.map srcEntryOf,
            timestamp := now } ∧
      ∀ r ∈ rs, pyLen (pyTake 200 (textOfRec r)) ≤ 200 := by
  have hscore := similarity_search_score st (embed question) k rs hsearch
  obtain ⟨ctx, hctx⟩ := buildContext_ok rs hscore htext
  refine ⟨ctx, hctx, ?_, fun r _ => pyTake_len_le 200 (textOfRec r)⟩
  have hsources : buildSources rs = Except.ok (rs.map srcEntryOf) :=
    mapM_except_map sourceOf srcEntryOf rs (fun r hr => sourceOf_eq r (htext r hr))
  unfold RAGSystem.query
  simp only [hsearch, hctx, hsources]
  rfl


theorem C8_witness :
    (("hi" : String) ≠ "" ∧
      FAISSStore.similarity_search
        { vector_dim := 2, index := { d := 2, vecs := [[0, 0]] },
          metadata := [[("text", PyObj.str "T"),
            ("document_name", PyObj.str "d.txt")]] } [(1 : ℚ), 1] 3 =
        Except.ok [[("text", PyObj.str "T"),
          ("document_name", PyObj.str "d.txt"), ("score", PyObj.rat 2)]] ∧
      ∀ r ∈ [[("text", PyObj.str "T"), ("document_name", PyObj.str "d.txt"),
          ("score", PyObj.rat 2)]], textPresentStr r = true) ∧
    (∃ ctx, buildContext [[("text", PyObj.str "T"),
        ("document_name", PyObj.str "d.txt"), ("score", PyObj.rat 2)]] =
        Except.ok ctx ∧
      (RAGSystem.query (fun _ => [(1 : ℚ), 1])
          (fun p => PyObj.str ((fun _ => "ANS") p))
          { vector_dim := 2, index := { d := 2, vecs := [[0, 0]] },
            metadata := [[("text", PyObj.str "T"),
              ("document_name", PyObj.str "d.txt")]] } "hi" 3 "TS").1 =
        Except.ok
          { question := "hi",
            answer := pyStrip ((fun _ => "ANS") (buildPrompt ctx "hi")),
            sources := [[("text", PyObj.str "T"),
              ("document_name", PyObj.str "d.txt"),
              ("score", PyObj.rat 2)]].map srcEntryOf,
            timestamp := "TS" } ∧
      ∀ r ∈ [[("text", PyObj.str "T"), ("document_name", PyObj.str "d.txt"),
          ("score", PyObj.rat 2)]],
        pyLen (pyTake 200 (textOfRec r)) ≤ 200) := by
  have hsearch :
      FAISSStore.similarity_search
        { vector_dim := 2, index := { d := 2, vecs := [[0, 0]] },
          metadata := [[("text", PyObj.str "T"),
            ("document_name", PyObj.str "d.txt")]] } [(1 : ℚ), 1] 3 =
      Except.ok [[("text", PyObj.str "T"),
        ("document_name", PyObj.str "d.txt"), ("score", PyObj.rat 2)]] := by
    have hl : l2sq [(1 : ℚ), 1] [0, 0] = 2 := by
      norm_num [l2sq]
    simp [FAISSStore.similarity_search, Faiss.search, Faiss.ntotal, hl,
      sortPairs, sortedInsert, searchKeep, updateKey, List.filterMap,
      List.replicate, List.enum, List.enumFrom]
  exact ⟨⟨by decide, hsearch, by decide⟩,
    C8_query_result_shape (fun _ => [(1 : ℚ), 1]) (fun _ => "ANS")
      { vector_dim := 2, index := { d := 2, vecs := [[0, 0]] },
        metadata := [[("text", PyObj.str "T"),
          ("document_name", PyObj.str "d.txt")]] } "hi" 3 "TS"
      [[("text", PyObj.str "T"), ("document_name", PyObj.str "d.txt"),
        ("score", PyObj.rat 2)]]
      (by decide) hsearch (by decide)⟩

/-! ### Claims C5 and C10: chunker bounds and non-emptiness -/

/-- The running length counter of the sentence loop: each buffered
sentence counts its length plus one. -/
def sumLen1 (l : List String) : Int :=
  (l.map (fun s => (pyLen s : Int) + 1)).sum

theorem pyLen_append (a b : String) : pyLen (a ++ b) = pyLen a + pyLen b := by
  simp [pyLen]

theorem pyLen_eq_zero_iff (s : String) : pyLen s = 0 ↔ s = "" := by
  rw [String.ext_iff]
  show s.data.length = 0 ↔ s.data = "".data
  rw [List.length_eq_zero]

theorem mkChunk_text (t : String) : (mkChunk t).text = t := rfl

theorem mkChunk_length (t : String) : (mkChunk t).length = pyLen t := rfl

theorem joinWith_singleton (sep s : String) : joinWith sep [s] = s := rfl

theorem joinWith_cons2 (sep s : String) (l : List String) (h : l ≠ []) :
    joinWith sep (s :: l) = s ++ sep ++ joinWith sep l := by
  cases l with
  | nil => exact absurd rfl h
  | cons t ts => rfl

theorem pyLen_joinWith_space (l : List String) (h : l ≠ []) :
    (pyLen (joinWith " " l) : Int) = sumLen1 l - 1 := by
  induction l with
  | nil => exact absurd rfl h
  | cons s rest ih =>
    cases rest with
    | nil =>
      rw [joinWith_singleton]
      simp [sumLen1]
    | cons t ts =>
      rw [joinWith_cons2 _ _ _ (by simp), pyLen_append, pyLen_append]
      have hrec := ih (by simp)
      have hsum : sumLen1 (s :: t :: ts) =
          ((pyLen s : Int) + 1) + sumLen1 (t :: ts) := by
        simp [sumLen1]
      rw [hsum]
      push_cast at hrec ⊢
      have hsep : pyLen " " = 1 := rfl
      rw [hsep] at *
      push_cast
      omega

theorem joinWith_ne_empty (sep : String) (l : List String) (hne : l ≠ [])
    (hall : ∀ s ∈ l, s ≠ "") : joinWith sep l ≠ "" := by
  induction l with
  | nil => exact absurd rfl hne
  | cons s rest ih =>
    cases rest with
    | nil =>
      rw [joinWith_singleton]
      exact hall s (List.mem_singleton.mpr rfl)
    | cons t ts =>
      rw [joinWith_cons2 _ _ _ (by simp)]
      intro hcontra
      have h0 : pyLen (s ++ sep ++ joinWith sep (t :: ts)) = 0 :=
        (pyLen_eq_zero_iff _).mpr hcontra
      rw [pyLen_append, pyLen_append] at h0
      have hs : pyLen s ≠ 0 :=
        fun hz => hall s (List.mem_cons_self s _) ((pyLen_eq_zero_iff s).mp hz)
      omega

/-- The invariant of the paragraph loop: the buffer holds no empty
string, and every emitted chunk has a consistent length field and
non-empty text. -/
def P1Good (st : P1State) : Prop :=
  (∀ s ∈ st.cur, s ≠ "") ∧
  ∀ c ∈ st.chunks, c.length = pyLen c.text ∧ c.text ≠ ""

theorem takeLast2_subset (l : List String) : takeLast2 l ⊆ l :=
  List.drop_subset _ l

theorem p1Step_good (cs : Int) (st : P1State) (para : String)
    (hp : para ≠ "") (h : P1Good st) : P1Good (p1Step cs st para) := by
  obtain ⟨hcur, hchunks⟩ := h
  have hfin : ∀ rest : List Chunk, (∀ c ∈ rest, c.length = pyLen c.text ∧
      c.text ≠ "") → ∀ l : List String, l ≠ [] → (∀ s ∈ l, s ≠ "") →
      ∀ c ∈ rest ++ [mkChunk (joinWith "\n\n" l)],
        c.length = pyLen c.text ∧ c.text ≠ "" := by
    intro rest hrest l hlne hlgood c hc
    rcases List.mem_append.mp hc with hc | hc
    · exact hrest c hc
    · rw [List.mem_singleton.mp hc]
      exact ⟨mkChunk_length _, by
        rw [mkChunk_text]
        exact joinWith_ne_empty _ l hlne hlgood⟩
  unfold p1Step
  dsimp only
  by_cases h1 : st.cur ≠ [] ∧ st.curLen + (pyLen para : Int) > cs
  · simp only [if_pos h1]
    set seed := takeLast2 st.cur with hseed
    have hseedgood : ∀ s ∈ seed, s ≠ "" :=
      fun s hs => hcur s (takeLast2_subset st.cur hs)
    have hchunks1 : ∀ c ∈ st.chunks ++ [mkChunk (joinWith "\n\n" st.cur)],
        c.length = pyLen c.text ∧ c.text ≠ "" :=
      hfin st.chunks hchunks st.cur h1.1 hcur
    by_cases h2 : isHeading para ∧ (seed ++ [para]).length > 1
    · simp only [if_pos h2, List.dropLast_concat]
      by_cases h3 : seed ≠ []
      · simp only [if_pos h3]
        refine ⟨?_, ?_⟩
        · intro s hs
          rw [List.mem_singleton.mp hs]
          exact hp
        · exact hfin _ hchunks1 seed h3 hseedgood
      · simp only [if_neg h3]
        refine ⟨?_, hchunks1⟩
        intro s hs
        rw [List.mem_singleton.mp hs]
        exact hp
    · simp only [if_neg h2]
      refine ⟨?_, hchunks1⟩
      intro s hs
      rcases List.mem_append.mp hs with hs | hs
      · exact hseedgood s hs
      · rw [List.mem_singleton.mp hs]
        exact hp
  · simp only [if_neg h1]
    by_cases h2 : isHeading para ∧ (st.cur ++ [para]).length > 1
    · simp only [if_pos h2, List.dropLast_concat]
      by_cases h3 : st.cur ≠ []
      · simp only [if_pos h3]
        refine ⟨?_, hfin st.chunks hchunks st.cur h3 hcur⟩
        intro s hs
        rw [List.mem_singleton.mp hs]
        exact hp
      · simp only [if_neg h3]
        refine ⟨?_, hchunks⟩
        intro s hs
        rw [List.mem_singleton.mp hs]
        exact hp
    · simp only [if_neg h2]
      refine ⟨?_, hchunks⟩
      intro s hs
      rcases List.mem_append.mp hs with hs | hs
      · exact hcur s hs
      · rw [List.mem_singleton.mp hs]
        exact hp

theorem foldl_p1_good (cs : Int) (paras : List String) (st : P1State)
    (hp : ∀ p ∈ paras, p ≠ "") (h : P1Good st) :
    P1Good (paras.foldl (p1Step cs) st) := by
  induction paras generalizing st with
  | nil => exact h
  | cons p rest ih =>
    exact ih _ (fun x hx => hp x (List.mem_cons_of_mem p hx))
      (p1Step_good cs st p (hp p (List.mem_cons_self p rest)) h)

theorem paragraphsOf_ne_empty (text : String) :
    ∀ p ∈ paragraphsOf text, p ≠ "" := by
  intro p hp
  unfold paragraphsOf at hp
  exact of_decide_eq_true (List.mem_filter.mp hp).2

theorem firstPass_good (cs : Int) (text : String) :
    ∀ c ∈ firstPass cs text, c.length = pyLen c.text ∧ c.text ≠ "" := by
  intro c hc
  unfold firstPass at hc
  have hfold := foldl_p1_good cs (paragraphsOf text) ⟨[], [], 0⟩
    (paragraphsOf_ne_empty text) ⟨by simp, by simp⟩
  rcases List.mem_append.mp hc with hc | hc
  · exact hfold.2 c hc
  · by_cases hne : ((paragraphsOf text).foldl (p1Step cs) ⟨[], [], 0⟩).cur ≠ []
    · rw [if_pos hne] at hc
      rw [List.mem_singleton.mp hc]
      exact ⟨mkChunk_length _, by
        rw [mkChunk_text]
        exact joinWith_ne_empty _ _ hne (fun s hs => hfold.1 s hs)⟩
    · rw [if_neg hne] at hc
      exact absurd hc (List.not_mem_nil c)


/-- The invariant of the sentence loop of the post-processing step:
the counter tracks the buffer, buffered sentences are non-empty
members of the stripped sentence list, any buffer of two or more
sentences joins within the bound, and every emitted chunk is
well-formed and either within the bound or a single stripped
sentence. -/
def RSInv (cs : Int) (stripped : List String) (st : RSState) : Prop :=
  st.curLen = sumLen1 st.cur ∧
  (∀ s ∈ st.cur, s ∈ stripped ∧ s ≠ "") ∧
  (2 ≤ st.cur.length → (pyLen (joinWith " " st.cur) : Int) ≤ cs) ∧
  ∀ c ∈ st.out, c.length = pyLen c.text ∧ c.text ≠ "" ∧
    ((pyLen c.text : Int) ≤ cs ∨ c.text ∈ stripped)

theorem rs_finalize_good (cs : Int) (stripped : List String)
    (cur : List String) (hne : cur ≠ [])
    (hmem : ∀ s ∈ cur, s ∈ stripped ∧ s ≠ "")
    (hbound : 2 ≤ cur.length → (pyLen (joinWith " " cur) : Int) ≤ cs) :
    (mkChunk (joinWith " " cur)).length =
        pyLen (mkChunk (joinWith " " cur)).text ∧
      (mkChunk (joinWith " " cur)).text ≠ "" ∧
      ((pyLen (mkChunk (joinWith " " cur)).text : Int) ≤ cs ∨
        (mkChunk (joinWith " " cur)).text ∈ stripped) := by
  rw [mkChunk_text]
  refine ⟨mkChunk_length _, joinWith_ne_empty _ _ hne
    (fun s hs => (hmem s hs).2), ?_⟩
  cases cur with
  | nil => exact absurd rfl hne
  | cons s rest =>
    cases rest with
    | nil =>
      rw [joinWith_singleton]
      exact Or.inr (hmem s (List.mem_singleton.mpr rfl)).1
    | cons t ts =>
      exact Or.inl (hbound (by simp))

theorem sumLen1_append_singleton (l : List String) (s : String) :
    sumLen1 (l ++ [s]) = sumLen1 l + ((pyLen s : Int) + 1) := by
  simp [sumLen1]

theorem rsStep_inv (cs : Int) (stripped : List String) (st : RSState)
    (sent : String) (hs : pyStrip sent ∈ stripped)
    (h : RSInv cs stripped st) : RSInv cs stripped (rsStep cs st sent) := by
  obtain ⟨hlen, hmem, hbound, hout⟩ := h
  unfold rsStep
  dsimp only
  by_cases hempty : pyStrip sent = ""
  · rw [if_pos hempty]
    exact ⟨hlen, hmem, hbound, hout⟩
  · rw [if_neg hempty]
    by_cases hover : st.cur ≠ [] ∧
        st.curLen + (pyLen (pyStrip sent) : Int) > cs
    · simp only [if_pos hover]
      refine ⟨?_, ?_, ?_, ?_⟩
      · simp [sumLen1, pyLen]
      · intro s hsm
        rw [List.mem_singleton.mp hsm]
        exact ⟨hs, hempty⟩
      · intro habs
        simp at habs
      · intro c hc
        rcases List.mem_append.mp hc with hc | hc
        · exact hout c hc
        · rw [List.mem_singleton.mp hc]
          exact rs_finalize_good cs stripped st.cur hover.1 hmem hbound
    · simp only [if_neg hover]
      refine ⟨?_, ?_, ?_, hout⟩
      · dsimp only
        rw [sumLen1_append_singleton, hlen]
        ring
      · intro s hsm
        rcases List.mem_append.mp hsm with hsm | hsm
        · exact hmem s hsm
        · rw [List.mem_singleton.mp hsm]
          exact ⟨hs, hempty⟩
      · intro hlen2
        by_cases hcur : st.cur = []
        · rw [hcur] at hlen2
          simp at hlen2
        · have hle : st.curLen + (pyLen (pyStrip sent) : Int) ≤ cs := by
            by_contra hgt
            exact hover ⟨hcur, lt_of_not_le hgt⟩
          rw [hlen] at hle
          rw [pyLen_joinWith_space _ (by simp), sumLen1_append_singleton]
          omega

theorem foldl_rs_inv (cs : Int) (stripped : List String)
    (sents : List String) (st : RSState)
    (hs : ∀ x ∈ sents, pyStrip x ∈ stripped)
    (h : RSInv cs stripped st) :
    RSInv cs stripped (sents.foldl (rsStep cs) st) := by
  induction sents generalizing st with
  | nil => exact h
  | cons x rest ih =>
    exact ih _ (fun y hy => hs y (List.mem_cons_of_mem x hy))
      (rsStep_inv cs stripped st x (hs x (List.mem_cons_self x rest)) h)

theorem resplitChunk_mem (cs : Int) (text : String) (c : Chunk)
    (h : c ∈ resplitChunk cs text) :
    c.length = pyLen c.text ∧ c.text ≠ "" ∧
    ((pyLen c.text : Int) ≤ cs ∨
      c.text ∈ (sentSplitStr text).map pyStrip) := by
  unfold resplitChunk at h
  have hinv := foldl_rs_inv cs ((sentSplitStr text).map pyStrip)
    (sentSplitStr text) ⟨[], [], 0⟩
    (fun x hx => List.mem_map_of_mem pyStrip hx)
    ⟨by simp [sumLen1], by simp, by simp, by simp⟩
  obtain ⟨_, hmem, hbound, hout⟩ := hinv
  rcases List.mem_append.mp h with hc | hc
  · exact hout c hc
  · by_cases hne : ((sentSplitStr text).foldl (rsStep cs) ⟨[], [], 0⟩).cur ≠ []
    · rw [if_pos hne] at hc
      rw [List.mem_singleton.mp hc]
      exact rs_finalize_good cs _ _ hne hmem hbound
    · rw [if_neg hne] at hc
      exact absurd hc (List.not_mem_nil c)

theorem postProcess_eq (cs : Int) (chunks : List Chunk) :
    postProcess cs chunks = chunks.flatMap
      (fun b => if (b.length : Int) ≤ cs then [b]
        else resplitChunk cs b.text) := by
  unfold postProcess
  suffices hgen : ∀ (l : List Chunk) (acc : List Chunk),
      l.foldl (fun a c => if (c.length : Int) ≤ cs then a ++ [c]
        else a ++ resplitChunk cs c.text) acc =
      acc ++ l.flatMap (fun b => if (b.length : Int) ≤ cs then [b]
        else resplitChunk cs b.text) by
    rw [hgen chunks []]
    rfl
  intro l
  induction l with
  | nil => intro acc; simp
  | cons b rest ih =>
    intro acc
    rw [List.foldl_cons, List.flatMap_cons]
    by_cases hb : (b.length : Int) ≤ cs
    · rw [if_pos hb, if_pos hb, ih, List.append_assoc]
    · rw [if_neg hb, if_neg hb, ih, List.append_assoc]

/-- C10: every chunk returned by split_into_chunks has non-empty text:
empty and whitespace-only paragraphs and sentences are discarded
before accumulation and a buffer is finalised only when non-empty, so
no produced chunk is empty. -/
theorem C10_chunks_nonempty (cs : Int) (text : String) :
    ∀ c ∈ splitIntoChunks cs text, c.text ≠ "" := by
  intro c hc
  unfold splitIntoChunks at hc
  by_cases hstrip : pyStrip text = ""
  · rw [if_pos hstrip] at hc
    exact absurd hc (List.not_mem_nil c)
  · rw [if_neg hstrip, postProcess_eq] at hc
    obtain ⟨b, hb, hcb⟩ := List.mem_flatMap.mp hc
    by_cases hble : (b.length : Int) ≤ cs
    · rw [if_pos hble] at hcb
      rw [List.mem_singleton.mp hcb]
      exact (firstPass_good cs text b hb).2
    · rw [if_neg hble] at hcb
      exact (resplitChunk_mem cs b.text c hcb).2.1

theorem C10_witness :
    mkChunk "Hello. World." ∈ splitIntoChunks 1000 "Hello. World." ∧
    (mkChunk "Hello. World.").text ≠ "" := by
  have hmem : mkChunk "Hello. World." ∈ splitIntoChunks 1000 "Hello. World." := by
    have heq : splitIntoChunks 1000 "Hello. World." =
        [mkChunk "Hello. World."] := by decide
    rw [heq]
    exact List.mem_singleton.mpr rfl
  exact ⟨hmem, C10_chunks_nonempty 1000 "Hello. World."
    (mkChunk "Hello. World.") hmem⟩

/-- C5: for every input text and positive chunk_size, every produced
chunk is within the bound, except a chunk that is a single (stripped)
sentence of an oversized first-pass chunk, emitted verbatim even
though longer than the bound. -/
theorem C5_chunk_size_bound (cs : Int) (text : String) (_hcs : 0 < cs) :
    ∀ c ∈ splitIntoChunks cs text,
      (pyLen c.text : Int) ≤ cs ∨
      (cs < (pyLen c.text : Int) ∧ ∃ b ∈ firstPass cs text,
        c.text ∈ (sentSplitStr b.text).map pyStrip) := by
  intro c hc
  unfold splitIntoChunks at hc
  by_cases hstrip : pyStrip text = ""
  · rw [if_pos hstrip] at hc
    exact absurd hc (List.not_mem_nil c)
  · rw [if_neg hstrip, postProcess_eq] at hc
    obtain ⟨b, hb, hcb⟩ := List.mem_flatMap.mp hc
    by_cases hble : (b.length : Int) ≤ cs
    · rw [if_pos hble] at hcb
      rw [List.mem_singleton.mp hcb]
      exact Or.inl (by
        rw [← (firstPass_good cs text b hb).1]
        exact hble)
    · rw [if_neg hble] at hcb
      have hr := resplitChunk_mem cs b.text c hcb
      by_cases hcle : (pyLen c.text : Int) ≤ cs
      · exact Or.inl hcle
      · refine Or.inr ⟨lt_of_not_le hcle, b, hb, ?_⟩
        rcases hr.2.2 with hle | hmem
        · exact absurd hle hcle
        · exact hmem

theorem C5_witness :
    (0 : Int) < 10 ∧
    ∀ c ∈ splitIntoChunks 10 "One two three. Four.",
      (pyLen c.text : Int) ≤ 10 ∨
      (10 < (pyLen c.text : Int) ∧ ∃ b ∈ firstPass 10 "One two three. Four.",
        c.text ∈ (sentSplitStr b.text).map pyStrip) :=
  ⟨by norm_num, C5_chunk_size_bound 10 "One two three. Four." (by norm_num)⟩


end RagSys
